import Mathlib

/-!
Verification of the request-routing and prompt-assembly pipeline of the
vee-gpt chat backend (`backend/app/main.py`), shallowly embedded in Lean.

Python strings are modelled as `List Char` (a Python `str` is a sequence of
Unicode code points).  Pure helper functions (`split_large_code`, the
keyword classifiers, the regex searches used by the `chat` endpoint) are
translated directly from the source; network calls (SerpAPI, OpenWeather,
OpenAI) are modelled as oracles supplied as explicit parameters.
-/

/-- Python `str` modelled as a list of Unicode scalar values. -/
abbrev Str := List Char

/-- Convert a Lean string literal to the `Str` model. -/
def str (s : String) : Str := s.toList

/-- Python's `'\n'.join` / `text.split('\n')` inverse: join a list of lines
with a newline separator (`'\n'.join(lines)`). -/
def joinNl : List Str → Str
  | [] => []
  | [x] => x
  | x :: y :: xs => x ++ '\n' :: joinNl (y :: xs)

/-- Python's `text.split('\n')`: always returns at least one piece. -/
def splitOnNl : Str → List Str
  | [] => [[]]
  | c :: rest =>
    if c = '\n' then [] :: splitOnNl rest
    else
      match splitOnNl rest with
      | [] => [[c]]
      | h :: t => (c :: h) :: t

theorem splitOnNl_ne_nil (s : Str) : splitOnNl s ≠ [] := by
  cases s with
  | nil => simp [splitOnNl]
  | cons c rest =>
    simp only [splitOnNl]
    split
    · simp
    · split <;> simp

theorem joinNl_splitOnNl (s : Str) : joinNl (splitOnNl s) = s := by
  induction s with
  | nil => rfl
  | cons c rest ih =>
    simp only [splitOnNl]
    split
    · rename_i hc
      subst hc
      cases h : splitOnNl rest with
      | nil => exact absurd h (splitOnNl_ne_nil rest)
      | cons h0 t0 =>
        rw [h] at ih
        simp [joinNl, ih]
    · cases h : splitOnNl rest with
      | nil => exact absurd h (splitOnNl_ne_nil rest)
      | cons h0 t0 =>
        rw [h] at ih
        cases t0 with
        | nil => simpa [joinNl] using congrArg (c :: ·) ih
        | cons h1 t1 => simpa [joinNl] using congrArg (c :: ·) ih

/-! ## Chunk/Token Estimator (`count_tokens_estimate`, `split_large_code`) -/

/-- `count_tokens_estimate(text)`: `len(text) // 4`. -/
def count_tokens_estimate (text : Str) : Nat := text.length / 4

/-- The loop of `split_large_code`: greedily accumulate lines into
`cur` (the Python `current_chunk`), flushing `'\n'.join(current_chunk)`
into `chunks` whenever adding the next line would push `current_size`
past `max_chars` and the current chunk is non-empty. -/
def slcLoop (maxChars : Nat) : List Str → List Str → List Str → Nat → List Str
  | [], chunks, cur, _ => if cur = [] then chunks else chunks ++ [joinNl cur]
  | line :: rest, chunks, cur, sz =>
    if maxChars < sz + (line.length + 1) ∧ cur ≠ [] then
      slcLoop maxChars rest (chunks ++ [joinNl cur]) [line] (line.length + 1)
    else
      slcLoop maxChars rest chunks (cur ++ [line]) (sz + (line.length + 1))

/-- `split_large_code(text, max_tokens)` from `backend/app/main.py`. -/
def split_large_code (text : Str) (maxTokens : Nat) : List Str :=
  slcLoop (maxTokens * 4) (splitOnNl text) [] [] 0

/-- The same loop, kept at the level of line groups (before each group is
joined with newlines); used to reason about `split_large_code`. -/
def slcGroups (maxChars : Nat) : List Str → List (List Str) → List Str → Nat → List (List Str)
  | [], gs, cur, _ => if cur = [] then gs else gs ++ [cur]
  | line :: rest, gs, cur, sz =>
    if maxChars < sz + (line.length + 1) ∧ cur ≠ [] then
      slcGroups maxChars rest (gs ++ [cur]) [line] (line.length + 1)
    else
      slcGroups maxChars rest gs (cur ++ [line]) (sz + (line.length + 1))

/-- `current_size` accounting of the Python loop: each line is charged its
length plus one for a newline. -/
def sizeLines (g : List Str) : Nat := (g.map (fun l => l.length + 1)).sum

/-- Charge of the first line of a group (0 for an empty group). -/
def headSize : List Str → Nat
  | [] => 0
  | l :: _ => l.length + 1

theorem sizeLines_append (a b : List Str) :
    sizeLines (a ++ b) = sizeLines a + sizeLines b := by
  simp [sizeLines]

theorem sizeLines_joinNl (g : List Str) (h : g ≠ []) :
    sizeLines g = (joinNl g).length + 1 := by
  induction g with
  | nil => exact absurd rfl h
  | cons x xs ih =>
    cases xs with
    | nil => simp [sizeLines, joinNl]
    | cons y ys =>
      have h2 := ih (by simp)
      calc sizeLines (x :: y :: ys)
          = x.length + 1 + sizeLines (y :: ys) := by simp [sizeLines]
        _ = x.length + 1 + ((joinNl (y :: ys)).length + 1) := by rw [h2]
        _ = (x ++ '\n' :: joinNl (y :: ys)).length + 1 := by simp; omega
        _ = (joinNl (x :: y :: ys)).length + 1 := rfl

theorem slcLoop_eq_map (mc : Nat) (lines : List Str) :
    ∀ (gs : List (List Str)) (cur : List Str) (sz : Nat),
      slcLoop mc lines (gs.map joinNl) cur sz = (slcGroups mc lines gs cur sz).map joinNl := by
  induction lines with
  | nil =>
    intro gs cur sz
    simp only [slcLoop, slcGroups]
    split <;> simp
  | cons line rest ih =>
    intro gs cur sz
    simp only [slcLoop, slcGroups]
    split
    · have : gs.map joinNl ++ [joinNl cur] = (gs ++ [cur]).map joinNl := by simp
      rw [this, ih]
    · exact ih gs (cur ++ [line]) (sz + (line.length + 1))

theorem split_large_code_eq_groups (text : Str) (maxTokens : Nat) :
    split_large_code text maxTokens
      = (slcGroups (maxTokens * 4) (splitOnNl text) [] [] 0).map joinNl := by
  have := slcLoop_eq_map (maxTokens * 4) (splitOnNl text) [] [] 0
  simpa [split_large_code] using this

theorem slcGroups_join (mc : Nat) (lines : List Str) :
    ∀ (gs : List (List Str)) (cur : List Str) (sz : Nat),
      (slcGroups mc lines gs cur sz).flatten = gs.flatten ++ cur ++ lines := by
  induction lines with
  | nil =>
    intro gs cur sz
    simp only [slcGroups]
    split
    · rename_i h; subst h; simp
    · simp
  | cons line rest ih =>
    intro gs cur sz
    simp only [slcGroups]
    split
    · rw [ih]; simp
    · rw [ih]; simp

theorem slcGroups_ne_nil (mc : Nat) (lines : List Str) :
    ∀ (gs : List (List Str)) (cur : List Str) (sz : Nat),
      (∀ g ∈ gs, g ≠ []) →
      ∀ g ∈ slcGroups mc lines gs cur sz, g ≠ [] := by
  induction lines with
  | nil =>
    intro gs cur sz hgs g hg
    simp only [slcGroups] at hg
    split at hg
    · exact hgs g hg
    · rename_i hcur
      rcases List.mem_append.1 hg with h | h
      · exact hgs g h
      · simp at h; subst h; exact hcur
  | cons line rest ih =>
    intro gs cur sz hgs g hg
    simp only [slcGroups] at hg
    split at hg
    · rename_i hcond
      refine ih (gs ++ [cur]) [line] (line.length + 1) ?_ g hg
      intro g' hg'
      rcases List.mem_append.1 hg' with h | h
      · exact hgs g' h
      · simp at h; subst h; exact hcond.2
    · exact ih gs (cur ++ [line]) (sz + (line.length + 1)) hgs g hg

/-- Boundary relation between consecutive chunks: the loop only flushed the
left chunk because appending the right chunk's first line would have pushed
`current_size` past `max_chars`. -/
def chunkBoundary (mc : Nat) (g g' : List Str) : Prop :=
  mc < sizeLines g + headSize g'

theorem slcGroups_chain (mc : Nat) (lines : List Str) :
    ∀ (gs : List (List Str)) (cur : List Str) (sz : Nat),
      sz = sizeLines cur →
      (cur = [] → gs = []) →
      List.Chain' (chunkBoundary mc) gs →
      (∀ x, gs.getLast? = some x → cur ≠ [] → chunkBoundary mc x cur) →
      List.Chain' (chunkBoundary mc) (slcGroups mc lines gs cur sz) := by
  induction lines with
  | nil =>
    intro gs cur sz hsz hcur hchain hpend
    simp only [slcGroups]
    split
    · exact hchain
    · rename_i hne
      rw [List.chain'_append]
      refine ⟨hchain, List.chain'_singleton _, ?_⟩
      intro x hx y hy
      simp at hy
      subst hy
      exact hpend x hx hne
  | cons line rest ih =>
    intro gs cur sz hsz hcur hchain hpend
    simp only [slcGroups]
    split
    · rename_i hcond
      refine ih (gs ++ [cur]) [line] (line.length + 1) ?_ ?_ ?_ ?_
      · simp [sizeLines]
      · simp
      · rw [List.chain'_append]
        refine ⟨hchain, List.chain'_singleton _, ?_⟩
        intro x hx y hy
        simp at hy
        subst hy
        exact hpend x hx hcond.2
      · intro x hx _
        rw [List.getLast?_append] at hx
        simp at hx
        subst hx
        show mc < sizeLines cur + headSize [line]
        simp only [headSize]
        obtain ⟨h1, _⟩ := hcond
        omega
    · rename_i hcond
      refine ih gs (cur ++ [line]) (sz + (line.length + 1)) ?_ ?_ hchain ?_
      · rw [hsz, sizeLines_append]; simp [sizeLines]
      · intro h
        exact absurd h (by simp)
      · intro x hx _
        cases hc : cur with
        | nil =>
          have := hcur hc
          subst this
          simp at hx
        | cons c0 cs =>
          subst hc
          have hb := hpend x hx (by simp)
          simpa only [chunkBoundary, List.cons_append, headSize] using hb

theorem slcGroups_size (mc : Nat) (lines : List Str) :
    ∀ (gs : List (List Str)) (cur : List Str) (sz : Nat),
      sz = sizeLines cur →
      (2 ≤ cur.length → sizeLines cur ≤ mc) →
      (∀ g ∈ gs, 2 ≤ g.length → sizeLines g ≤ mc) →
      ∀ g ∈ slcGroups mc lines gs cur sz, 2 ≤ g.length → sizeLines g ≤ mc := by
  induction lines with
  | nil =>
    intro gs cur sz _ hcur hgs g hg
    simp only [slcGroups] at hg
    split at hg
    · exact hgs g hg
    · rcases List.mem_append.1 hg with h | h
      · exact hgs g h
      · simp at h; subst h; exact hcur
  | cons line rest ih =>
    intro gs cur sz hsz hcur hgs g hg
    simp only [slcGroups] at hg
    split at hg
    · refine ih (gs ++ [cur]) [line] (line.length + 1) (by simp [sizeLines]) (by simp) ?_ g hg
      intro g' hg'
      rcases List.mem_append.1 hg' with h | h
      · exact hgs g' h
      · simp at h; subst h; exact hcur
    · rename_i hcond
      refine ih gs (cur ++ [line]) (sz + (line.length + 1))
        (by rw [hsz, sizeLines_append]; simp [sizeLines]) ?_ hgs g hg
      intro hlen
      cases hc : cur with
      | nil => subst hc; simp at hlen
      | cons c0 cs =>
        subst hc
        have : ¬ mc < sz + (line.length + 1) := fun hlt => hcond ⟨hlt, by simp⟩
        rw [sizeLines_append, ← hsz]
        have hsl : sizeLines [line] = line.length + 1 := by simp [sizeLines]
        omega

theorem joinNl_append (a b : List Str) (ha : a ≠ []) (hb : b ≠ []) :
    joinNl (a ++ b) = joinNl a ++ '\n' :: joinNl b := by
  induction a with
  | nil => exact absurd rfl ha
  | cons x xs ih =>
    cases xs with
    | nil =>
      cases b with
      | nil => exact absurd rfl hb
      | cons y ys => simp [joinNl]
    | cons x1 xs1 =>
      have := ih (by simp)
      calc joinNl ((x :: x1 :: xs1) ++ b)
          = x ++ '\n' :: joinNl ((x1 :: xs1) ++ b) := rfl
        _ = x ++ '\n' :: (joinNl (x1 :: xs1) ++ '\n' :: joinNl b) := by rw [this]
        _ = (x ++ '\n' :: joinNl (x1 :: xs1)) ++ '\n' :: joinNl b := by simp
        _ = joinNl (x :: x1 :: xs1) ++ '\n' :: joinNl b := rfl

theorem joinNl_map_joinNl (L : List (List Str)) (h : ∀ g ∈ L, g ≠ []) :
    joinNl (L.map joinNl) = joinNl L.flatten := by
  induction L with
  | nil => rfl
  | cons g L' ih =>
    cases L' with
    | nil => simp [joinNl]
    | cons g1 L1 =>
      have hg : g ≠ [] := h g (by simp)
      have hflat : (g1 :: L1).flatten ≠ [] := by
        have hg1 : g1 ≠ [] := h g1 (by simp)
        cases g1 with
        | nil => exact absurd rfl hg1
        | cons c cs => simp
      have ihh := ih (fun g' hg' => h g' (List.mem_cons_of_mem _ hg'))
      calc joinNl ((g :: g1 :: L1).map joinNl)
          = joinNl g ++ '\n' :: joinNl ((g1 :: L1).map joinNl) := rfl
        _ = joinNl g ++ '\n' :: joinNl (g1 :: L1).flatten := by rw [ihh]
        _ = joinNl (g ++ (g1 :: L1).flatten) := (joinNl_append _ _ hg hflat).symm
        _ = joinNl (g :: g1 :: L1).flatten := by simp

/-- The groups of lines underlying `split_large_code text maxTokens`. -/
def slcG (text : Str) (maxTokens : Nat) : List (List Str) :=
  slcGroups (maxTokens * 4) (splitOnNl text) [] [] 0

theorem chain_boundary_joined (mc : Nat) (G : List (List Str))
    (hne : ∀ g ∈ G, g ≠ []) (hch : List.Chain' (chunkBoundary mc) G) :
    List.Chain' (fun g g' => mc < (joinNl g).length + 1 + headSize g') G := by
  induction G with
  | nil => simp
  | cons g G' ih =>
    cases G' with
    | nil => simp
    | cons g1 G1 =>
      rw [List.chain'_cons] at hch ⊢
      refine ⟨?_, ih (fun x hx => hne x (List.mem_cons_of_mem _ hx)) hch.2⟩
      have hg : g ≠ [] := hne g (by simp)
      have := sizeLines_joinNl g hg
      have hb := hch.1
      unfold chunkBoundary at hb
      omega

theorem mem_le_sizeLines (g : List Str) (l : Str) (hl : l ∈ g) :
    l.length + 1 ≤ sizeLines g := by
  have : l.length + 1 ∈ g.map (fun x => x.length + 1) := List.mem_map_of_mem _ hl
  exact List.single_le_sum (fun x _ => Nat.zero_le x) _ this

/-- C3: for every input text and positive `max_tokens`, joining the chunks
returned by `split_large_code` with a newline character reproduces the
original text exactly. -/
theorem split_large_code_reassembles (text : Str) (maxTokens : Nat)
    (h : 0 < maxTokens) :
    joinNl (split_large_code text maxTokens) = text := by
  rw [split_large_code_eq_groups,
    joinNl_map_joinNl _ (slcGroups_ne_nil _ _ [] [] 0 (by simp)),
    slcGroups_join]
  simpa using joinNl_splitOnNl text

/-- Witness for `split_large_code_reassembles` at text `"ab\ncd\n"`,
`max_tokens = 1`. -/
theorem split_large_code_reassembles_witness :
    0 < 1 ∧ joinNl (split_large_code (str "ab\ncd\n") 1) = str "ab\ncd\n" :=
  ⟨by decide, split_large_code_reassembles (str "ab\ncd\n") 1 (by decide)⟩

/-- C10: `split_large_code` always returns a non-empty list of chunks, and
on the empty string it returns exactly one empty chunk. -/
theorem split_large_code_ne_nil (text : Str) (maxTokens : Nat)
    (h : 0 < maxTokens) :
    split_large_code text maxTokens ≠ [] ∧
      split_large_code [] maxTokens = [[]] := by
  constructor
  · rw [split_large_code_eq_groups]
    intro hnil
    rw [List.map_eq_nil_iff] at hnil
    have hflat := slcGroups_join (maxTokens * 4) (splitOnNl text) [] [] 0
    rw [hnil] at hflat
    simp at hflat
    exact splitOnNl_ne_nil text hflat
  · show slcLoop (maxTokens * 4) (splitOnNl []) [] [] 0 = [[]]
    have h1 : splitOnNl ([] : Str) = [[]] := rfl
    rw [h1]
    show slcLoop (maxTokens * 4) [[]] [] [] 0 = [[]]
    rw [slcLoop, if_neg (by simp)]
    rw [slcLoop, if_neg (by simp)]
    rfl

/-- Witness for `split_large_code_ne_nil` at `max_tokens = 2`. -/
theorem split_large_code_ne_nil_witness :
    0 < 2 ∧ (split_large_code (str "x") 2 ≠ [] ∧
      split_large_code [] 2 = [[]]) :=
  ⟨by decide, split_large_code_ne_nil (str "x") 2 (by decide)⟩

/-- C4 counterexample: with `max_tokens = 1` (character budget `4`) and
input `"ab\nc"`, adding the line `"c"` to the current chunk `"ab"` would
produce the chunk `"ab\nc"` of length exactly `4`, which does **not**
exceed `max_tokens * 4`; the claim therefore requires no split, but
`split_large_code` starts a new chunk (its `current_size` accounting
charges one extra character per line, so it also splits when the joined
chunk would merely reach the budget). -/
theorem split_large_code_boundary_counterexample :
    split_large_code (str "ab\nc") 1 = [str "ab", str "c"]
    ∧ ((str "ab") ++ '\n' :: (str "c")).length = 1 * 4
    ∧ ¬ (1 * 4 < (str "ab").length + 1 + (str "c").length) := by
  refine ⟨?_, by decide, by decide⟩
  decide

/-- C4 (amended): `split_large_code` splits only on line boundaries,
accumulating greedily, but a new chunk is started exactly when
`len(chunk) + len(next line) + 2` would exceed `max_tokens * 4` (the loop
charges one newline character per accumulated line, including a virtual
trailing one): every multi-line chunk has length strictly below the
character budget, adjacent chunks witness the overflow condition, and a
single line longer than the budget is kept whole as its own chunk. -/
theorem split_large_code_greedy_boundaries (text : Str) (maxTokens : Nat)
    (h : 0 < maxTokens) :
    split_large_code text maxTokens = (slcG text maxTokens).map joinNl
    ∧ (slcG text maxTokens).flatten = splitOnNl text
    ∧ (∀ g ∈ slcG text maxTokens, g ≠ [])
    ∧ List.Chain' (fun g g' => maxTokens * 4 < (joinNl g).length + 1 + headSize g')
        (slcG text maxTokens)
    ∧ (∀ g ∈ slcG text maxTokens, 2 ≤ g.length → (joinNl g).length < maxTokens * 4)
    ∧ (∀ g ∈ slcG text maxTokens, ∀ l ∈ g, maxTokens * 4 < l.length → g = [l]) := by
  have hne : ∀ g ∈ slcG text maxTokens, g ≠ [] :=
    slcGroups_ne_nil _ _ [] [] 0 (by simp)
  have hsize : ∀ g ∈ slcG text maxTokens, 2 ≤ g.length → sizeLines g ≤ maxTokens * 4 :=
    slcGroups_size _ _ [] [] 0 rfl (by simp) (by simp)
  refine ⟨split_large_code_eq_groups text maxTokens, ?_, hne, ?_, ?_, ?_⟩
  · have := slcGroups_join (maxTokens * 4) (splitOnNl text) [] [] 0
    simpa [slcG] using this
  · refine chain_boundary_joined _ _ hne ?_
    exact slcGroups_chain _ _ [] [] 0 rfl (fun _ => rfl) (by simp) (by simp)
  · intro g hg hlen
    have h1 := hsize g hg hlen
    have h2 := sizeLines_joinNl g (hne g hg)
    omega
  · intro g hg l hl hlong
    have hls := mem_le_sizeLines g l hl
    cases g with
    | nil => exact absurd rfl (hne _ hg)
    | cons x xs =>
      cases xs with
      | nil =>
        have : l = x := by simpa using hl
        subst this; rfl
      | cons y ys =>
        have h1 := hsize _ hg (by simp)
        omega

/-- Witness for `split_large_code_greedy_boundaries` at text `"ab\ncd"`,
`max_tokens = 1`: the conclusion is evaluated at this input. -/
theorem split_large_code_greedy_boundaries_witness :
    0 < 1 ∧ split_large_code (str "ab\ncd") 1 = [str "ab", str "cd"] := by
  refine ⟨by decide, ?_⟩
  have h := (split_large_code_greedy_boundaries (str "ab\ncd") 1 (by decide)).1
  rw [h]
  decide

/-! ## String searching primitives (Python `in`, `re.search`) -/

/-- Python `needle in hay` (substring membership). -/
def containsSub (needle : Str) : Str → Bool
  | [] => needle.isPrefixOf []
  | c :: t => needle.isPrefixOf (c :: t) || containsSub needle t

theorem containsSub_append_right (m a b : Str) (h : containsSub m b = true) :
    containsSub m (a ++ b) = true := by
  induction a with
  | nil => simpa using h
  | cons c t ih =>
    show (m.isPrefixOf (c :: (t ++ b)) || containsSub m (t ++ b)) = true
    rw [ih]
    simp

/-- Python's `\w` word character for the lower-cased ASCII texts routed
through the classifier (`[a-zA-Z0-9_]`). -/
def isWordChar (c : Char) : Bool :=
  ('a' ≤ c && c ≤ 'z') || ('A' ≤ c && c ≤ 'Z') || ('0' ≤ c && c ≤ '9') || c = '_'

/-- Python's `\s` (ASCII whitespace). -/
def isWsChar (c : Char) : Bool :=
  c = ' ' || c = '\t' || c = '\n' || c = '\r' || c = '\x0b' || c = '\x0c'

/-- `[a-zA-Z]` character class. -/
def isAlphaAscii (c : Char) : Bool :=
  ('a' ≤ c && c ≤ 'z') || ('A' ≤ c && c ≤ 'Z')

/-- A `\b` boundary holds before the match if the previous character (if
any) is not a word character. -/
def prevBoundaryOk : Option Char → Bool
  | none => true
  | some c => !isWordChar c

/-- A `\b` boundary holds after the match if the next character (if any)
is not a word character. -/
def nextBoundaryOk : Str → Bool
  | [] => true
  | c :: _ => !isWordChar c

/-- `re.search(r"\b<kw>\b", s)` at one position: `kw` is a literal
(possibly containing spaces), with word boundaries on both sides. -/
def matchWordAt (kw : Str) (prev : Option Char) (s : Str) : Bool :=
  prevBoundaryOk prev && kw.isPrefixOf s && nextBoundaryOk (s.drop kw.length)

/-- Scan all start positions for a word-bounded literal match. -/
def searchWordFrom (kw : Str) (prev : Option Char) : Str → Bool
  | [] => matchWordAt kw prev []
  | c :: t => matchWordAt kw prev (c :: t) || searchWordFrom kw (some c) t

/-- `re.search(r"\b<kw>\b", s) is not None`. -/
def hasWordBounded (kw : Str) (s : Str) : Bool := searchWordFrom kw none s

/-- Python `s.strip()`: remove leading and trailing whitespace. -/
def pyStrip (s : Str) : Str :=
  ((s.dropWhile isWsChar).reverse.dropWhile isWsChar).reverse

/-- `[a-zA-Z\s]` — the character class of the location capture group. -/
def isLocClass (c : Char) : Bool := isAlphaAscii c || isWsChar c

/-- Try `re.search(r"in\s+([a-zA-Z\s]+)", ...)` at one position and return
the capture group: after a literal `in`, `\s+` greedily takes the maximal
whitespace run; the greedy group is then the maximal `[a-zA-Z\s]+` run, and
if that run is empty the engine backtracks one whitespace character into
the group (possible only when the whitespace run has length at least 2). -/
def locGroupAt : Str → Option Str
  | 'i' :: 'n' :: rest =>
    let wsRun := rest.takeWhile isWsChar
    if wsRun = [] then none
    else
      let clsRun := (rest.drop wsRun.length).takeWhile isLocClass
      if clsRun = [] then
        if 2 ≤ wsRun.length then
          match wsRun.getLast? with
          | some w => some [w]
          | none => none
        else none
      else some clsRun
  | _ => none

/-- `re.search(r"in\s+([a-zA-Z\s]+)", u)`: leftmost match's capture group. -/
def searchLocGroup : Str → Option Str
  | [] => none
  | c :: t =>
    match locGroupAt (c :: t) with
    | some g => some g
    | none => searchLocGroup t

/-- The `location_match` of the `chat` endpoint. -/
def location_match (u : Str) : Option Str := searchLocGroup u

/-- The `location` variable of the `chat` endpoint:
`location_match.group(1).strip() if location_match else "India"`. -/
def chatLocation (u : Str) : Str :=
  match location_match u with
  | some g => pyStrip g
  | none => str "India"

/-! ## Intent Classifier and Realtime Data Fetcher (`chat`, lines 679-905) -/

/-- The realtime-data categories checked, in source order, by the `chat`
endpoint. -/
inductive Category
  | weather | news | sports | stocks | crypto | fuel | agriculture
  | minerals | environment | health | events | travel
  | extremeWeather | education
deriving DecidableEq

/-- The keyword list of each category, copied from the `any(keyword in
last_user for keyword in [...])` tests of the `chat` endpoint. -/
def categoryKeywords : Category → List Str
  | .weather => [str "weather", str "climate", str "temperature", str "wind",
      str "humidity", str "forecast"]
  | .news => [str "news", str "headlines", str "latest", str "breaking",
      str "updates"]
  | .sports => [str "sports", str "cricket", str "football", str "soccer",
      str "basketball", str "match", str "score", str "tournament"]
  | .stocks => [str "stock", str "share", str "market", str "sensex",
      str "nifty", str "nasdaq", str "dow jones"]
  | .crypto => [str "crypto", str "bitcoin", str "ethereum", str "btc",
      str "eth", str "blockchain", str "nft"]
  | .fuel => [str "petrol", str "fuel", str "diesel", str "gas",
      str "price", str "lpg"]
  | .agriculture => [str "soil", str "agriculture", str "farming",
      str "crop", str "harvest", str "fertilizer"]
  | .minerals => [str "coal", str "mineral", str "mining", str "ore",
      str "iron", str "copper", str "gold"]
  | .environment => [str "air quality", str "pollution", str "aqi",
      str "pm2.5", str "environment", str "ozone"]
  | .health => [str "health", str "disease", str "virus", str "covid",
      str "medicine", str "treatment", str "hospital"]
  | .events => [str "event", str "conference", str "concert",
      str "festival", str "tournament", str "meeting"]
  | .travel => [str "traffic", str "flight", str "travel", str "route",
      str "transport", str "commute"]
  | .extremeWeather => [str "rain", str "flood", str "storm",
      str "cyclone", str "hurricane", str "tsunami", str "earthquake"]
  | .education => [str "education", str "admission", str "exam",
      str "neet", str "jee", str "board", str "result"]

/-- The categories in the order their `if` blocks appear in `chat`. -/
def categoriesInOrder : List Category :=
  [.weather, .news, .sports, .stocks, .crypto, .fuel, .agriculture,
   .minerals, .environment, .health, .events, .travel, .extremeWeather,
   .education]

/-- A category matches the lower-cased last user utterance if any of its
keywords occurs as a substring. -/
def catMatches (u : Str) (c : Category) : Bool :=
  (categoryKeywords c).any (fun k => containsSub k u)

/-- Outcome of a category's external lookup + response parsing, supplied as
an oracle: `.error ()` models a raised exception anywhere in the branch
body, `.ok (some s)` models a successful lookup whose parsed data appends
the snippet `s` to `realtime_info`, `.ok none` a lookup whose response
yields no usable data (no snippet appended).  The second argument is the
`location` variable in scope at the call. -/
def FetchOracle := Category → Str → Except Unit (Option Str)

/-- State accumulated by the realtime block: the `realtime_info` snippets,
the external lookups performed (category paired with the `location`
variable at the call), and whether an exception escaped to the single
`except` handler wrapping the whole block. -/
structure RealtimeState where
  snippets : List Str
  calls : List (Category × Str)
  raised : Bool
deriving DecidableEq

/-- Run the sequence of category `if` blocks.  The weather block first
computes `city = location if location_match else None` and skips its
lookup when `city` is falsy (`None` or the empty string); every other
matched category performs its lookup unconditionally.  All blocks live
inside one shared `try`, so a raised exception aborts every later block
(but is caught, leaving the snippets collected so far intact). -/
def runCats (o : FetchOracle) (u : Str) (loc : Str) (hasLoc : Bool) :
    List Category → RealtimeState
  | [] => ⟨[], [], false⟩
  | c :: rest =>
    if catMatches u c then
      if c = Category.weather ∧ (hasLoc = false ∨ loc = []) then
        runCats o u loc hasLoc rest
      else
        match o c loc with
        | .error _ => ⟨[], [(c, loc)], true⟩
        | .ok none =>
          let r := runCats o u loc hasLoc rest
          ⟨r.snippets, (c, loc) :: r.calls, r.raised⟩
        | .ok (some s) =>
          let r := runCats o u loc hasLoc rest
          ⟨s :: r.snippets, (c, loc) :: r.calls, r.raised⟩
    else
      runCats o u loc hasLoc rest

/-- The realtime block of a text-only `chat` request. -/
def runRealtime (o : FetchOracle) (u : Str) : RealtimeState :=
  runCats o u (chatLocation u) (location_match u).isSome categoriesInOrder

/-- The realtime block of the `chat` endpoint: skipped entirely unless the
request is text-only. -/
def chatRealtime (o : FetchOracle) (textOnly : Bool) (u : Str) : RealtimeState :=
  if textOnly then runRealtime o u else ⟨[], [], false⟩

/-- Header prepended to the realtime snippets when `realtime_info` is
non-empty (`"⏱ REALTIME DATA MODE (STRICT)"` block of `chat`). -/
def realtimeHeader : Str :=
  str "\n\n════════════════════════════\n⏱ REALTIME DATA MODE (STRICT)\n════════════════════════════\nThe following information is LIVE and fetched from external APIs (Google / OpenWeather).\n\nRULES:\n✔ You MUST use the realtime data provided\n✔ NEVER say \"I don\x27t have real-time data\"\n✔ NEVER redirect users to external websites\n✔ NEVER say data is unavailable if present\n✔ ALWAYS include date & time in responses\n✔ Present data confidently as current\n\nIf realtime data exists, treat it as authoritative truth.\n════════════════════════════\n\nRealtime data:\n"

/-- `if realtime_info: system_prompt = system_prompt + <header> +
"\n".join(realtime_info)` — the Prompt Assembler's realtime step. -/
def appendRealtimeBlock (base : Str) (snippets : List Str) : Str :=
  if snippets = [] then base else base ++ realtimeHeader ++ joinNl snippets

theorem runCats_no_match (o : FetchOracle) (u loc : Str) (hl : Bool) :
    ∀ L : List Category, (∀ c ∈ L, catMatches u c = false) →
      runCats o u loc hl L = ⟨[], [], false⟩ := by
  intro L
  induction L with
  | nil => intro _; rfl
  | cons c rest ih =>
    intro hL
    have hc := hL c (by simp)
    rw [runCats, if_neg (by simp [hc])]
    exact ih (fun c' h' => hL c' (List.mem_cons_of_mem _ h'))

/-- C5: a text-only utterance containing no keyword of any realtime
category produces an empty snippet list, and the Prompt Assembler then
leaves the system prompt unchanged — no `REALTIME DATA MODE` block is
appended. -/
theorem no_keyword_no_realtime_block (o : FetchOracle) (u base : Str)
    (h : ∀ c ∈ categoriesInOrder, catMatches u c = false) :
    (chatRealtime o true u).snippets = []
    ∧ appendRealtimeBlock base (chatRealtime o true u).snippets = base
    ∧ (containsSub (str "REALTIME DATA MODE") base = false →
        containsSub (str "REALTIME DATA MODE")
          (appendRealtimeBlock base (chatRealtime o true u).snippets) = false) := by
  have hrun : chatRealtime o true u = ⟨[], [], false⟩ := by
    show runRealtime o u = _
    exact runCats_no_match o u _ _ _ h
  rw [hrun]
  refine ⟨rfl, rfl, fun hb => ?_⟩
  simpa [appendRealtimeBlock] using hb

/-- Oracle returning "no usable data" for every lookup. -/
def noDataOracle : FetchOracle := fun _ _ => .ok none

/-- Witness for `no_keyword_no_realtime_block` at the utterance
`"hello there"`. -/
theorem no_keyword_no_realtime_block_witness :
    (chatRealtime noDataOracle true (str "hello there")).snippets = []
    ∧ appendRealtimeBlock (str "You are vee-gpt")
        (chatRealtime noDataOracle true (str "hello there")).snippets
        = str "You are vee-gpt" := by
  have h := no_keyword_no_realtime_block noDataOracle (str "hello there")
    (str "You are vee-gpt") (by decide)
  exact ⟨h.1, h.2.1⟩

theorem runCats_calls_loc (o : FetchOracle) (u loc : Str) (hl : Bool) :
    ∀ L : List Category, ∀ p ∈ (runCats o u loc hl L).calls, p.2 = loc := by
  intro L
  induction L with
  | nil => intro p hp; simp [runCats] at hp
  | cons c rest ih =>
    intro p hp
    rw [runCats] at hp
    split at hp
    · split at hp
      · exact ih p hp
      · split at hp
        · simp at hp; subst hp; rfl
        · simp at hp
          rcases hp with h | h
          · subst h; rfl
          · exact ih p h
        · simp at hp
          rcases hp with h | h
          · subst h; rfl
          · exact ih p h
    · exact ih p hp

theorem runCats_weather_not_called (o : FetchOracle) (u loc : Str) (hl : Bool)
    (hw : hl = false ∨ loc = []) :
    ∀ L : List Category, ∀ p ∈ (runCats o u loc hl L).calls,
      p.1 ≠ Category.weather := by
  intro L
  induction L with
  | nil => intro p hp; simp [runCats] at hp
  | cons c rest ih =>
    intro p hp
    rw [runCats] at hp
    split at hp
    · split at hp
      · exact ih p hp
      · rename_i hskip
        have hcw : c ≠ Category.weather := fun hc => hskip ⟨hc, hw⟩
        split at hp
        · simp at hp; subst hp; exact hcw
        · simp at hp
          rcases hp with h | h
          · subst h; exact hcw
          · exact ih p h
        · simp at hp
          rcases hp with h | h
          · subst h; exact hcw
          · exact ih p h
    · exact ih p hp

theorem runCats_called_of_matched (o : FetchOracle) (u loc : Str) (hl : Bool)
    (hok : ∀ c' l, o c' l ≠ .error ()) :
    ∀ L : List Category, ∀ c ∈ L, catMatches u c = true →
      ¬(c = Category.weather ∧ (hl = false ∨ loc = [])) →
      (c, loc) ∈ (runCats o u loc hl L).calls := by
  intro L
  induction L with
  | nil => intro c hc; simp at hc
  | cons c0 rest ih =>
    intro c hc hm hperf
    rcases List.mem_cons.1 hc with hh | ht
    · subst hh
      rw [runCats, if_pos hm, if_neg hperf]
      cases h : o c loc with
      | error e => cases e; exact absurd h (hok c loc)
      | ok v => cases v <;> simp
    · rw [runCats]
      split
      · split
        · exact ih c ht hm hperf
        · cases h : o c0 loc with
          | error e => cases e; exact absurd h (hok c0 loc)
          | ok v =>
            cases v <;> simp <;> exact Or.inr (ih c ht hm hperf)
      · exact ih c ht hm hperf

/-- Oracle whose lookups always succeed with data. -/
def alwaysDataOracle : FetchOracle := fun _ _ => .ok (some (str "DATA"))

/-- C7 counterexample: the utterance `"weather today"` matches the weather
category and contains no `"in <words>"` pattern, yet the code performs
**no** weather lookup at all — `city = location if location_match else
None` is `None`, so the branch body is skipped instead of using the
fallback location `"India"`; no call is recorded and no snippet produced
even though the lookup would have returned data. -/
theorem weather_fallback_counterexample :
    catMatches (str "weather today") Category.weather = true
    ∧ location_match (str "weather today") = none
    ∧ runRealtime alwaysDataOracle (str "weather today") = ⟨[], [], false⟩ := by
  decide

/-- C7 (amended): when the utterance has no `"in <words>"` pattern, the
`location` variable falls back to `"India"` and every lookup that is
performed uses it — in particular a matched fuel category calls
`fuel_petrol(state="India")` — but the weather lookup itself is skipped
entirely rather than performed with the fallback. -/
theorem fallback_location_india (o : FetchOracle) (u : Str)
    (hnl : location_match u = none)
    (hok : ∀ c' l, o c' l ≠ .error ()) :
    chatLocation u = str "India"
    ∧ (∀ p ∈ (runRealtime o u).calls, p.2 = str "India")
    ∧ (∀ p ∈ (runRealtime o u).calls, p.1 ≠ Category.weather)
    ∧ (catMatches u Category.fuel = true →
        (Category.fuel, str "India") ∈ (runRealtime o u).calls) := by
  have hloc : chatLocation u = str "India" := by
    unfold chatLocation
    rw [hnl]
  have hsome : (location_match u).isSome = false := by rw [hnl]; rfl
  refine ⟨hloc, ?_, ?_, ?_⟩
  · intro p hp
    have := runCats_calls_loc o u (chatLocation u) (location_match u).isSome
      categoriesInOrder p hp
    rw [← hloc]; exact this
  · intro p hp
    exact runCats_weather_not_called o u (chatLocation u) (location_match u).isSome
      (Or.inl hsome) categoriesInOrder p hp
  · intro hm
    have := runCats_called_of_matched o u (chatLocation u) (location_match u).isSome
      hok categoriesInOrder Category.fuel (by simp [categoriesInOrder]) hm
      (by intro hx; cases hx.1)
    rw [← hloc]; exact this

/-- Witness for `fallback_location_india` at the utterance
`"petrol cost"` (matches only the fuel category, no location). -/
theorem fallback_location_india_witness :
    chatLocation (str "petrol cost") = str "India"
    ∧ (Category.fuel, str "India")
        ∈ (runRealtime noDataOracle (str "petrol cost")).calls := by
  have h := fallback_location_india noDataOracle (str "petrol cost")
    (by decide) (by intro c' l h; simp [noDataOracle] at h)
  exact ⟨h.1, h.2.2.2 (by decide)⟩

theorem runCats_raised_false (o : FetchOracle) (u loc : Str) (hl : Bool) :
    ∀ L : List Category, (∀ c ∈ L, ∀ l, o c l ≠ .error ()) →
      (runCats o u loc hl L).raised = false := by
  intro L
  induction L with
  | nil => intro _; rfl
  | cons c rest ih =>
    intro hok
    have ihr := ih (fun c' h' l => hok c' (List.mem_cons_of_mem _ h') l)
    rw [runCats]
    split
    · split
      · exact ihr
      · cases h : o c loc with
        | error e => cases e; exact absurd h (hok c (by simp) loc)
        | ok v => cases v <;> simpa using ihr
    · exact ihr

theorem runCats_calls_cat_mem (o : FetchOracle) (u loc : Str) (hl : Bool) :
    ∀ L : List Category, ∀ p ∈ (runCats o u loc hl L).calls, p.1 ∈ L := by
  intro L
  induction L with
  | nil => intro p hp; simp [runCats] at hp
  | cons c rest ih =>
    intro p hp
    rw [runCats] at hp
    split at hp
    · split at hp
      · exact List.mem_cons_of_mem _ (ih p hp)
      · split at hp
        · simp at hp; subst hp; simp
        · simp at hp
          rcases hp with h | h
          · subst h; simp
          · exact List.mem_cons_of_mem _ (ih p h)
        · simp at hp
          rcases hp with h | h
          · subst h; simp
          · exact List.mem_cons_of_mem _ (ih p h)
    · exact List.mem_cons_of_mem _ (ih p hp)

theorem runCats_error_split (o : FetchOracle) (u loc : Str) (hl : Bool)
    (c : Category) (herr : ∀ l, o c l = .error ())
    (hok : ∀ c' l, c' ≠ c → o c' l ≠ .error ())
    (hm : catMatches u c = true)
    (hperf : ¬(c = Category.weather ∧ (hl = false ∨ loc = []))) :
    ∀ L : List Category, c ∈ L →
      runCats o u loc hl L =
        ⟨(runCats o u loc hl (L.takeWhile (fun x => x != c))).snippets,
         (runCats o u loc hl (L.takeWhile (fun x => x != c))).calls ++ [(c, loc)],
         true⟩ := by
  intro L
  induction L with
  | nil => intro hc; simp at hc
  | cons c0 rest ih =>
    intro hc
    by_cases hc0 : c0 = c
    · subst hc0
      have htw : (c0 :: rest).takeWhile (fun x => x != c0) = [] := by
        simp [List.takeWhile_cons]
      rw [htw]
      conv_lhs => rw [runCats]
      rw [if_pos hm, if_neg hperf, herr loc]
      rfl
    · have hmem : c ∈ rest := by
        rcases List.mem_cons.1 hc with h | h
        · exact absurd h.symm hc0
        · exact h
      have htw : (c0 :: rest).takeWhile (fun x => x != c)
          = c0 :: rest.takeWhile (fun x => x != c) := by
        simp [List.takeWhile_cons, bne_iff_ne, hc0]
      rw [htw]
      simp only [runCats]
      by_cases hm0 : catMatches u c0 = true
      · simp only [if_pos hm0]
        by_cases hskip : c0 = Category.weather ∧ (hl = false ∨ loc = [])
        · simp only [if_pos hskip]
          exact ih hmem
        · simp only [if_neg hskip]
          cases h : o c0 loc with
          | error e =>
            cases e
            exact absurd h (hok c0 loc hc0)
          | ok v =>
            cases v with
            | none => rw [ih hmem]; rfl
            | some s => rw [ih hmem]; rfl
      · simp only [if_neg hm0]
        exact ih hmem

/-- Oracle on which the news lookup raises an exception while the sports
lookup would succeed with a snippet. -/
def newsFailsOracle : FetchOracle := fun c _ =>
  match c with
  | .news => .error ()
  | .sports => .ok (some (str "SPORTS-SNIPPET"))
  | _ => .ok none

/-- C2 counterexample: `"latest cricket"` matches both the news and the
sports categories; when the news lookup raises, the single shared
`try/except` around all category blocks aborts the remaining blocks, so
the matched sports category never performs its lookup and contributes no
snippet — contradicting the claim that every other matched category still
performs its own lookup behind its own failure boundary. -/
theorem realtime_boundary_counterexample :
    catMatches (str "latest cricket") Category.news = true
    ∧ catMatches (str "latest cricket") Category.sports = true
    ∧ runRealtime newsFailsOracle (str "latest cricket")
        = ⟨[], [(Category.news, str "India")], true⟩ := by
  decide

theorem mem_categoriesInOrder (c : Category) : c ∈ categoriesInOrder := by
  cases c <;> simp [categoriesInOrder]

/-- C2 (amended): an exception raised by the realtime lookup of one matched
category `c` is caught by the single shared handler — the chat request is
not aborted and the snippets already collected by matched categories
earlier in the fixed category order are kept — but `c` contributes no
snippet and every matched category after `c` is skipped entirely: the run
equals the clean run of the category prefix before `c` plus the one failed
call, and every recorded lookup belongs to that prefix or is `c` itself. -/
theorem realtime_failure_boundary (o : FetchOracle) (u : Str) (c : Category)
    (herr : ∀ l, o c l = .error ())
    (hok : ∀ c' l, c' ≠ c → o c' l ≠ .error ())
    (hm : catMatches u c = true)
    (hperf : ¬(c = Category.weather ∧
      ((location_match u).isSome = false ∨ chatLocation u = []))) :
    runRealtime o u =
      ⟨(runCats o u (chatLocation u) (location_match u).isSome
          (categoriesInOrder.takeWhile (fun x => x != c))).snippets,
       (runCats o u (chatLocation u) (location_match u).isSome
          (categoriesInOrder.takeWhile (fun x => x != c))).calls ++ [(c, chatLocation u)],
       true⟩
    ∧ (runCats o u (chatLocation u) (location_match u).isSome
        (categoriesInOrder.takeWhile (fun x => x != c))).raised = false
    ∧ ∀ p ∈ (runRealtime o u).calls,
        p.1 ∈ categoriesInOrder.takeWhile (fun x => x != c) ∨ p.1 = c := by
  have hsplit := runCats_error_split o u (chatLocation u) (location_match u).isSome
    c herr hok hm hperf categoriesInOrder (mem_categoriesInOrder c)
  refine ⟨hsplit, ?_, ?_⟩
  · refine runCats_raised_false o u _ _ _ ?_
    intro c' hc' l
    have hpred := List.mem_takeWhile_imp hc'
    simp only [bne_iff_ne, ne_eq, decide_eq_true_eq] at hpred
    exact hok c' l hpred
  · intro p hp
    rw [show (runRealtime o u).calls
        = (runCats o u (chatLocation u) (location_match u).isSome
            (categoriesInOrder.takeWhile (fun x => x != c))).calls ++ [(c, chatLocation u)]
      from congrArg RealtimeState.calls hsplit] at hp
    rcases List.mem_append.1 hp with h | h
    · exact Or.inl (runCats_calls_cat_mem o u _ _ _ p h)
    · simp at h
      subst h
      exact Or.inr rfl

/-- Witness for `realtime_failure_boundary`: on `"latest cricket"` with
the news lookup raising, the run keeps no snippet, records only the failed
news call, and sets the caught-exception flag. -/
theorem realtime_failure_boundary_witness :
    runRealtime newsFailsOracle (str "latest cricket")
      = ⟨[], [(Category.news, str "India")], true⟩ := by
  have h := (realtime_failure_boundary newsFailsOracle (str "latest cricket")
    Category.news (fun _ => rfl)
    (by
      intro c' l hne he
      cases c' <;> simp [newsFailsOracle] at he
      exact hne rfl)
    (by decide)
    (by intro hx; cases hx.1)).1
  rw [h]
  decide

/-! ## Image-Intent Router (`chat`, lines 919-936) -/

/-- The alternatives of the explanation pattern
`r"\b(explain|describe|what is|what are|how does|tell me about|who is|why is)\b"`. -/
def explanationAlternatives : List Str :=
  [str "explain", str "describe", str "what is", str "what are",
   str "how does", str "tell me about", str "who is", str "why is"]

/-- `is_explanation_request`: the lower-cased text matches some
explanation alternative with word boundaries on both sides. -/
def is_explanation_request (s : Str) : Bool :=
  explanationAlternatives.any (fun k => hasWordBounded k s)

/-- The leading verbs of the first pure-image pattern
`r"^(?:show|find|get|generate|search|view|display)\s+..."`. -/
def pureImageVerbs : List Str :=
  [str "show", str "find", str "get", str "generate", str "search",
   str "view", str "display"]

/-- The image-noun alternatives
`(?:images?|photos?|pictures?|pics?|diagrams?|sketches?)`, with the
optional trailing `s` expanded (note the source spells the last
alternative `sketches?`, i.e. `sketche` with optional `s`). -/
def imageNouns : List Str :=
  [str "images", str "image", str "photos", str "photo", str "pictures",
   str "picture", str "pics", str "pic", str "diagrams", str "diagram",
   str "sketches", str "sketche"]

/-- The characters `.` matches (anything but a newline). -/
def isDotChar (c : Char) : Bool := c ≠ '\n'

/-- The gap `\s+.*?` between verb and noun in the first pure-image
pattern: at least one whitespace character, then any run without a
newline.  A segment can be so divided iff it starts with whitespace and
its maximal whitespace prefix is followed by no newline. -/
def gapMatches : Str → Bool
  | [] => false
  | c :: t => isWsChar c && !((c :: t).dropWhile isWsChar).contains '\n'

/-- First pure-image pattern
`r"^(?:show|find|get|generate|search|view|display)\s+.*?(?:images?|...)"`:
anchored at the start, a verb, the `\s+.*?` gap, then an image noun. -/
def pureImagePattern1 (s : Str) : Bool :=
  pureImageVerbs.any (fun v =>
    v.isPrefixOf s &&
      (List.range ((s.drop v.length).length + 1)).any (fun i =>
        gapMatches ((s.drop v.length).take i) &&
          imageNouns.any (fun n => n.isPrefixOf ((s.drop v.length).drop i))))

/-- After a noun, the second pattern requires `\s+of`: at least one
whitespace character (greedy, since whitespace and `o` are disjoint)
followed by the literal `of`. -/
def wsThenOf : Str → Bool
  | [] => false
  | c :: t => isWsChar c && (str "of").isPrefixOf ((c :: t).dropWhile isWsChar)

/-- Second pure-image pattern `r"(?:images?|photos?|...)\s+of"` at one
position. -/
def nounOfAt (s : Str) : Bool :=
  imageNouns.any (fun n => n.isPrefixOf s && wsThenOf (s.drop n.length))

/-- `re.search` of the second pure-image pattern: any start position. -/
def pureImagePattern2 : Str → Bool
  | [] => nounOfAt []
  | c :: t => nounOfAt (c :: t) || pureImagePattern2 t

/-- Some pure-image pattern matches the lower-cased text. -/
def pureImagePatternMatch (s : Str) : Bool :=
  pureImagePattern1 s || pureImagePattern2 s

/-- `is_pure_image_request`: a pure-image pattern matches **and** the text
is not an explanation request. -/
def is_pure_image_request (s : Str) : Bool :=
  pureImagePatternMatch s && !is_explanation_request s

/-- `fetch_images_upfront = is_pure_image_request`. -/
def fetch_images_upfront (s : Str) : Bool := is_pure_image_request s

/-- The router states of the Image-Intent Router. -/
inductive ImageIntent
  | NONE | PURE_IMAGE | EXPLANATION
deriving DecidableEq

/-- Classification performed by the `chat` endpoint's image logic. -/
def imageIntentRoute (s : Str) : ImageIntent :=
  if is_explanation_request s then .EXPLANATION
  else if is_pure_image_request s then .PURE_IMAGE
  else .NONE

/-- `if fetch_images_upfront: image_urls = fetch_images_for_query(...)` —
the up-front fetch, with the network result supplied as a parameter. -/
def upfrontImageFetch (fetched : List Str) (s : Str) : List Str :=
  if fetch_images_upfront s then fetched else []

/-- C1: whenever the lower-cased utterance matches an explanation pattern,
the router classifies it as `EXPLANATION` — never `PURE_IMAGE`, even if a
pure-image pattern also matches — and no up-front image fetch is
performed. -/
theorem explanation_wins_over_pure_image (s : Str)
    (h : is_explanation_request s = true) :
    imageIntentRoute s = ImageIntent.EXPLANATION
    ∧ imageIntentRoute s ≠ ImageIntent.PURE_IMAGE
    ∧ fetch_images_upfront s = false
    ∧ ∀ fetched : List Str, upfrontImageFetch fetched s = [] := by
  have hpure : is_pure_image_request s = false := by
    simp [is_pure_image_request, h]
  refine ⟨?_, ?_, ?_, ?_⟩
  · simp [imageIntentRoute, h]
  · simp [imageIntentRoute, h]
  · simp [fetch_images_upfront, hpure]
  · intro fetched
    simp [upfrontImageFetch, fetch_images_upfront, hpure]

/-- Witness for `explanation_wins_over_pure_image` at the utterance
`"explain how volcanoes work with images"` (which also mentions images). -/
theorem explanation_wins_over_pure_image_witness :
    is_explanation_request (str "explain how volcanoes work with images") = true
    ∧ imageIntentRoute (str "explain how volcanoes work with images")
        = ImageIntent.EXPLANATION
    ∧ fetch_images_upfront (str "explain how volcanoes work with images") = false := by
  have h1 : is_explanation_request (str "explain how volcanoes work with images") = true := by
    decide
  have h := explanation_wins_over_pure_image _ h1
  exact ⟨h1, h.1, h.2.2.1⟩

/-! ## Conversation messages, continuation detection, prompt injection -/

/-- Message roles occurring in the conversation lists. -/
inductive Role
  | system | user | assistant | other
deriving DecidableEq

/-- A conversation message (`{role, content}`). -/
structure Msg where
  role : Role
  content : Str
deriving DecidableEq

/-- `sum(1 for m in final_messages if m.get('role') == 'user')`. -/
def userCount (ms : List Msg) : Nat :=
  (ms.filter (fun m => m.role = Role.user)).length

/-- `sum(1 for m in final_messages if m.get('role') == 'assistant')`. -/
def assistantCount (ms : List Msg) : Nat :=
  (ms.filter (fun m => m.role = Role.assistant)).length

/-- `next((m for m in reversed(final_messages) if m.get('role') ==
'assistant'), None)` — the last assistant message, if any. -/
def lastAssistant (ms : List Msg) : Option Msg :=
  ms.reverse.find? (fun m => m.role = Role.assistant)

/-- `is_continuation_request` of the `chat` endpoint: exactly one user
message, at least one assistant message, and the **last** assistant
message has truthy (non-empty) content. -/
def is_continuation_request (ms : List Msg) : Bool :=
  userCount ms = 1 && 1 ≤ assistantCount ms &&
    (match lastAssistant ms with
     | some m => !(m.content = [])
     | none => false)

/-- The continuation directive block appended to the system prompt
(`⚠ CONTINUATION MODE: CRITICAL INSTRUCTIONS ...`). -/
def continuationDirective : Str :=
  str "\n\n═════════════════════════════════════════\n⚠ CONTINUATION MODE: CRITICAL INSTRUCTIONS\n═════════════════════════════════════════\nYou are CONTINUING a response that was interrupted.\n\n✅ MUST DO:\n1. Continue IMMEDIATELY with the next content\n2. NO preambles, greetings, or \"Certainly\" messages\n3. NO explanations like \"Here\x27s the continuation\"\n4. NO section headers or reintroduction\n5. Write naturally from where the previous response ended\n\n❌ NEVER DO:\n- Do not start with \"Certainly\", \"Sure\", \"Here\x27s\", \"Let me continue\"\n- Do not repeat what was already written\n- Do not add introductory text\n- Do not summarize the previous part\n\n✨ Just continue writing the next sentence/paragraph/code exactly as if you never stopped."

/-- The Prompt Assembler's continuation step: append the directive iff
continuation mode was detected. -/
def appendContinuation (base : Str) (ms : List Msg) : Str :=
  if is_continuation_request ms then base ++ continuationDirective else base

/-- `if messages and messages[0].get('role') == 'system': replace content
else insert a system message at the front` — applied to both `messages`
and `final_messages`. -/
def injectSystemPrompt (p : Str) : List Msg → List Msg
  | [] => [⟨Role.system, p⟩]
  | m :: rest =>
    if m.role = Role.system then ⟨Role.system, p⟩ :: rest
    else ⟨Role.system, p⟩ :: m :: rest

/-- A message list with one user message, an earlier non-empty assistant
message, and a final empty assistant message. -/
def msgsLastAssistantEmpty : List Msg :=
  [⟨Role.user, str "hi"⟩, ⟨Role.assistant, str "x"⟩, ⟨Role.assistant, []⟩]

/-- C8 counterexample: this list contains exactly one user message and an
assistant message with non-empty content, so the claim requires
continuation mode; but the code inspects only the **last** assistant
message, whose content is empty, and detects no continuation — the
directive is absent. -/
theorem continuation_detection_counterexample :
    userCount msgsLastAssistantEmpty = 1
    ∧ (⟨Role.assistant, str "x"⟩ : Msg) ∈ msgsLastAssistantEmpty
    ∧ str "x" ≠ []
    ∧ is_continuation_request msgsLastAssistantEmpty = false
    ∧ appendContinuation (str "BASE") msgsLastAssistantEmpty = str "BASE" := by
  decide

/-- C8 (amended): continuation mode is detected exactly when the list has
exactly one user message, at least one assistant message, and the **last**
assistant message's content is non-empty; when detected the continuation
directive is appended to the system prompt, otherwise the prompt is left
unchanged and contains no continuation directive. -/
theorem continuation_detection (ms : List Msg) (base : Str)
    (hbase : containsSub (str "CONTINUATION MODE") base = false) :
    (is_continuation_request ms = true ↔
      (userCount ms = 1 ∧ 1 ≤ assistantCount ms ∧
        ∃ m, lastAssistant ms = some m ∧ m.content ≠ []))
    ∧ (is_continuation_request ms = true →
        appendContinuation base ms = base ++ continuationDirective
        ∧ containsSub (str "CONTINUATION MODE") (appendContinuation base ms) = true)
    ∧ (is_continuation_request ms = false →
        appendContinuation base ms = base
        ∧ containsSub (str "CONTINUATION MODE") (appendContinuation base ms) = false) := by
  refine ⟨?_, ?_, ?_⟩
  · unfold is_continuation_request
    cases hla : lastAssistant ms with
    | none => simp
    | some m => simp [and_assoc]
  · intro h
    have happ : appendContinuation base ms = base ++ continuationDirective := by
      simp [appendContinuation, h]
    refine ⟨happ, ?_⟩
    rw [happ]
    exact containsSub_append_right _ _ _ (by decide)
  · intro h
    have happ : appendContinuation base ms = base := by
      simp [appendContinuation, h]
    exact ⟨happ, by rw [happ]; exact hbase⟩

/-- A genuine continuation-shaped request: one user message plus a prior
assistant message with non-empty content. -/
def msgsContinuation : List Msg :=
  [⟨Role.user, str "continue"⟩, ⟨Role.assistant, str "partial answer"⟩]

/-- Witness for `continuation_detection`. -/
theorem continuation_detection_witness :
    is_continuation_request msgsContinuation = true
    ∧ appendContinuation (str "PERSONA") msgsContinuation
        = str "PERSONA" ++ continuationDirective
    ∧ containsSub (str "CONTINUATION MODE")
        (appendContinuation (str "PERSONA") msgsContinuation) = true := by
  have hdet : is_continuation_request msgsContinuation = true := by decide
  have h := continuation_detection msgsContinuation (str "PERSONA") (by decide)
  exact ⟨hdet, (h.2.1 hdet).1, (h.2.1 hdet).2⟩

/-- `True` of the messages that are not system messages. -/
def nonSystem (m : Msg) : Bool := m.role != Role.system

/-- Number of system-role messages in a list. -/
def countSystem (ms : List Msg) : Nat :=
  (ms.filter (fun m => m.role == Role.system)).length

/-- C9: after prompt injection the list sent to the model starts with a
system message carrying the assembled prompt; a leading system message is
replaced in place (length unchanged), otherwise one system message is
inserted at the front; non-system messages are untouched and keep their
order, and — under the data-model invariant that any input system message
is the leading one — the output contains exactly one system message. -/
theorem system_prompt_injection (p : Str) (ms : List Msg) :
    (injectSystemPrompt p ms).head? = some ⟨Role.system, p⟩
    ∧ (∀ m rest, ms = m :: rest → m.role = Role.system →
        injectSystemPrompt p ms = ⟨Role.system, p⟩ :: rest
        ∧ (injectSystemPrompt p ms).length = ms.length)
    ∧ (∀ m rest, ms = m :: rest → m.role ≠ Role.system →
        injectSystemPrompt p ms = ⟨Role.system, p⟩ :: ms)
    ∧ (injectSystemPrompt p ms).filter nonSystem = ms.filter nonSystem
    ∧ ((∀ m ∈ ms.drop 1, m.role ≠ Role.system) →
        countSystem (injectSystemPrompt p ms) = 1) := by
  refine ⟨?_, ?_, ?_, ?_, ?_⟩
  · cases ms with
    | nil => rfl
    | cons m rest =>
      by_cases hm : m.role = Role.system
      · simp [injectSystemPrompt, hm]
      · simp [injectSystemPrompt, hm]
  · intro m rest hms hm
    subst hms
    constructor
    · simp [injectSystemPrompt, hm]
    · simp [injectSystemPrompt, hm]
  · intro m rest hms hm
    subst hms
    simp [injectSystemPrompt, hm]
  · cases ms with
    | nil => simp [injectSystemPrompt, nonSystem]
    | cons m rest =>
      by_cases hm : m.role = Role.system
      · simp [injectSystemPrompt, hm, nonSystem]
      · simp [injectSystemPrompt, hm, nonSystem]
  · intro hclean
    cases ms with
    | nil => simp [injectSystemPrompt, countSystem]
    | cons m rest =>
      have hrest : ∀ x ∈ rest, (x.role == Role.system) = false := by
        intro x hx
        have := hclean x (by simpa using hx)
        simpa using this
      have hcount : countSystem rest = 0 := by
        simp [countSystem, List.filter_eq_nil_iff]
        intro x hx
        simpa using hrest x hx
      by_cases hm : m.role = Role.system
      · simp [injectSystemPrompt, hm, countSystem] at hcount ⊢
        intro x hx
        simpa using hrest x hx
      · have hmb : (m.role == Role.system) = false := by simpa using hm
        simp [injectSystemPrompt, hm, countSystem, hmb] at hcount ⊢
        intro x hx
        simpa using hrest x hx

/-- Witness for `system_prompt_injection`: a leading system message is
replaced, the length is unchanged, and exactly one system message
remains. -/
theorem system_prompt_injection_witness :
    injectSystemPrompt (str "NEWPROMPT")
        [⟨Role.system, str "old"⟩, ⟨Role.user, str "hi"⟩]
      = [⟨Role.system, str "NEWPROMPT"⟩, ⟨Role.user, str "hi"⟩]
    ∧ countSystem (injectSystemPrompt (str "NEWPROMPT")
        [⟨Role.system, str "old"⟩, ⟨Role.user, str "hi"⟩]) = 1 := by
  have h := system_prompt_injection (str "NEWPROMPT")
    [⟨Role.system, str "old"⟩, ⟨Role.user, str "hi"⟩]
  refine ⟨?_, h.2.2.2.2 (by decide)⟩
  exact (h.2.1 _ _ rfl rfl).1

/-! ## Streaming Response Relay (`generate`, lines 1239-1323) -/

/-- Server-sent events emitted by `generate` (the JSON `type` field as a
constructor, the remaining payload as arguments). -/
inductive SSEEvent
  | images (urls : List Str)
  | chunk (data : Str)
  | beautifiedImage (url : Str)
  | final (data : Str) (images : List Str) (messageId : Str)
      (finishReason : Option Str)
deriving DecidableEq

/-- Input of one `generate` run: the flags computed before the model call,
the model's incremental stream (each element the chunk's `delta.content` —
`[]` when absent or empty — paired with its `finish_reason`, `none` when
falsy), the outcome of the DALL-E beautification call (`some url` on
success, `none` on exception), and the identifier of the stored chat
document. -/
structure GenInput where
  fetchImagesUpfront : Bool
  imageUrls : List Str
  fragments : List (Str × Option Str)
  isBeautificationRequest : Bool
  imageUrlsInMessage : Bool
  dalleResult : Option Str
  messageId : Str

/-- `full_reply`: concatenation of the truthy fragment contents. -/
def fullReplyOf (g : GenInput) : Str := (g.fragments.map Prod.fst).flatten

/-- The last truthy `finish_reason` seen in the stream. -/
def finishReasonOf (g : GenInput) : Option Str :=
  g.fragments.foldl (fun acc p => match p.2 with
    | some r => some r
    | none => acc) none

/-- URL of the beautified image, produced only for a beautification
request on a message containing image URLs whose DALL-E call succeeds. -/
def beautifiedOf (g : GenInput) : Option Str :=
  if g.isBeautificationRequest && g.imageUrlsInMessage then g.dalleResult
  else none

/-- `final_images = [beautified_image_url] if beautified_image_url else
(explanation_images if fetch_images_from_response else image_urls)`, with
`fetch_images_from_response` hard-coded `False`. -/
def finalImagesOf (g : GenInput) : List Str :=
  match beautifiedOf g with
  | some u => [u]
  | none => g.imageUrls

/-- The event stream yielded by `generate`. -/
def generate (g : GenInput) : List SSEEvent :=
  (if g.fetchImagesUpfront && !g.imageUrls.isEmpty
    then [SSEEvent.images g.imageUrls] else [])
  ++ ((g.fragments.filter (fun p => !(p.1 = []))).map (fun p => SSEEvent.chunk p.1))
  ++ (match beautifiedOf g with
      | some u => [SSEEvent.beautifiedImage u]
      | none => [])
  ++ [SSEEvent.final (fullReplyOf g) (finalImagesOf g) g.messageId
        (finishReasonOf g)]

/-- The stream shape asserted by the claim (written from the spec's words,
for comparison with `generate`): an optional leading images event, one
chunk event per non-empty fragment, then a single final event whose
`images` field carries the fetched image URLs. -/
def claimedStream (g : GenInput) : List SSEEvent :=
  (if g.fetchImagesUpfront && !g.imageUrls.isEmpty
    then [SSEEvent.images g.imageUrls] else [])
  ++ ((g.fragments.filter (fun p => !(p.1 = []))).map (fun p => SSEEvent.chunk p.1))
  ++ [SSEEvent.final (fullReplyOf g) g.imageUrls g.messageId
        (finishReasonOf g)]

/-- A beautification request whose DALL-E call succeeds. -/
def beautifyGenInput : GenInput :=
  { fetchImagesUpfront := false
    imageUrls := []
    fragments := [(str "looks fine", none), ([], some (str "stop"))]
    isBeautificationRequest := true
    imageUrlsInMessage := true
    dalleResult := some (str "dalle-url")
    messageId := str "id1" }

/-- C6 counterexample: on an image-beautification request the relay emits
a `beautified_image` event between the chunk events and the final event,
and the final event carries the generated DALL-E URL instead of the
fetched image URLs — the stream is not of the claimed
images?/chunks/final shape. -/
theorem relay_stream_counterexample :
    generate beautifyGenInput
      = [SSEEvent.chunk (str "looks fine"),
         SSEEvent.beautifiedImage (str "dalle-url"),
         SSEEvent.final (str "looks fine") [str "dalle-url"] (str "id1")
           (some (str "stop"))]
    ∧ generate beautifyGenInput ≠ claimedStream beautifyGenInput := by
  refine ⟨by decide, by decide⟩

/-- Recognize a final-typed event. -/
def isFinalEvent : SSEEvent → Bool
  | .final _ _ _ _ => true
  | _ => false

/-- C6 (amended): the relay emits an images event first exactly on a
pure-image request with non-empty fetched URLs; then one chunk event per
non-empty fragment in arrival order; then — only when a beautification
request on a message with image URLs succeeds — a single
`beautified_image` event; and exactly one final event, last, whose data
equals the concatenation of all chunk event data and which carries a
message identifier and the image URLs (the beautified URL replacing the
fetched ones when beautification produced one). -/
theorem relay_stream_shape (g : GenInput) :
    generate g =
      (if g.fetchImagesUpfront && !g.imageUrls.isEmpty
        then [SSEEvent.images g.imageUrls] else [])
      ++ ((g.fragments.filter (fun p => !(p.1 = []))).map
            (fun p => SSEEvent.chunk p.1))
      ++ (match beautifiedOf g with
          | some u => [SSEEvent.beautifiedImage u]
          | none => [])
      ++ [SSEEvent.final (fullReplyOf g) (finalImagesOf g) g.messageId
            (finishReasonOf g)]
    ∧ ((g.fragments.filter (fun p => !(p.1 = []))).map Prod.fst).flatten
        = fullReplyOf g
    ∧ finalImagesOf g = (match beautifiedOf g with
        | some u => [u]
        | none => g.imageUrls)
    ∧ (generate g).getLast? = some (SSEEvent.final (fullReplyOf g)
        (finalImagesOf g) g.messageId (finishReasonOf g))
    ∧ ((generate g).filter isFinalEvent).length = 1
    ∧ (beautifiedOf g = none → generate g = claimedStream g) := by
  refine ⟨rfl, ?_, rfl, ?_, ?_, ?_⟩
  · show ((g.fragments.filter (fun p => !(p.1 = []))).map Prod.fst).flatten
      = (g.fragments.map Prod.fst).flatten
    induction g.fragments with
    | nil => rfl
    | cons p ps ih =>
      by_cases hp : p.1 = []
      · simp [hp, List.filter_cons, ih]
      · simp only [List.filter_cons, List.map_cons, List.flatten_cons]
        rw [if_pos (by simpa using hp)]
        simp only [List.map_cons, List.flatten_cons]
        rw [ih]
  · unfold generate
    rw [List.getLast?_append]
    rfl
  · unfold generate
    have h1 : List.filter isFinalEvent
        (if g.fetchImagesUpfront && !g.imageUrls.isEmpty
          then [SSEEvent.images g.imageUrls] else []) = [] := by
      split <;> rfl
    have h2 : List.filter isFinalEvent
        ((g.fragments.filter (fun p => !(p.1 = []))).map
          (fun p => SSEEvent.chunk p.1)) = [] := by
      rw [List.filter_eq_nil_iff]
      intro a ha
      rcases List.mem_map.1 ha with ⟨p, _, hp⟩
      rw [← hp]
      simp [isFinalEvent]
    have h3 : List.filter isFinalEvent
        (match beautifiedOf g with
          | some u => [SSEEvent.beautifiedImage u]
          | none => []) = [] := by
      cases beautifiedOf g <;> rfl
    simp only [List.filter_append, h1, h2, h3]
    rfl
  · intro hb
    unfold generate claimedStream
    rw [hb]
    have : finalImagesOf g = g.imageUrls := by
      unfold finalImagesOf
      rw [hb]
    rw [this]
    simp

/-- A plain pure-image streaming run (no beautification). -/
def plainGenInput : GenInput :=
  { fetchImagesUpfront := true
    imageUrls := [str "u1"]
    fragments := [(str "a", none), ([], none), (str "b", some (str "stop"))]
    isBeautificationRequest := false
    imageUrlsInMessage := false
    dalleResult := none
    messageId := str "m1" }

/-- Witness for `relay_stream_shape`: on a run without beautification the
stream is exactly images, chunks in order, and one trailing final event
whose data is the concatenated chunk data. -/
theorem relay_stream_shape_witness :
    generate plainGenInput
      = [SSEEvent.images [str "u1"], SSEEvent.chunk (str "a"),
         SSEEvent.chunk (str "b"),
         SSEEvent.final (str "ab") [str "u1"] (str "m1") (some (str "stop"))]
    ∧ generate plainGenInput = claimedStream plainGenInput := by
  have h := relay_stream_shape plainGenInput
  refine ⟨?_, h.2.2.2.2.2 (by decide)⟩
  rw [h.1]
  decide
